import Mathlib

/-!
Shallow embedding of the "war" card-game server (src/war.py) and proofs of
its specified properties.

Bytes are modelled as `Nat` (every byte read from a socket is in 0..255, but
none of the proved properties needs that bound).  A TCP connection delivering
bytes is modelled by `RecvState`: the list of bytes the peer will ever send,
together with a `sched` list describing how the transport partitions those
bytes into packets (each `recv` call may return fewer bytes than requested).
End-of-stream is reached exactly when the byte list is exhausted.
-/

namespace War

/-- Opcode `Command.WANTGAME = 0`, from the `Command` enum. -/
def Command.WANTGAME : Nat := 0

/-- Opcode `Command.GAMESTART = 1`. -/
def Command.GAMESTART : Nat := 1

/-- Opcode `Command.PLAYCARD = 2`. -/
def Command.PLAYCARD : Nat := 2

/-- Opcode `Command.PLAYRESULT = 3`. -/
def Command.PLAYRESULT : Nat := 3

/-- Outcome `Result.WIN = 0`, from the `Result` enum. -/
def Result.WIN : Nat := 0

/-- Outcome `Result.DRAW = 1`. -/
def Result.DRAW : Nat := 1

/-- Outcome `Result.LOSE = 2`. -/
def Result.LOSE : Nat := 2

/-- Function `compare_cards(card1, card2)`: compare the ranks `card % 13`,
returning -1, 0 or 1 exactly as the Python function does. -/
def compare_cards (card1 card2 : Nat) : Int :=
  let rank1 := card1 % 13
  let rank2 := card2 % 13
  if rank1 < rank2 then -1
  else if rank2 < rank1 then 1
  else 0

/-- One endpoint of a TCP stream as seen by the server: the bytes still to be
delivered, plus a packetisation schedule (how many bytes the next `recv`
calls are willing to hand over; entries are clamped to be at least 1, and a
missing entry means 1). -/
structure RecvState where
  bytes : List Nat
  sched : List Nat
deriving DecidableEq, Repr

/-- Model of `sock.recv(k)`: returns the empty packet exactly at end of stream;
otherwise a nonempty packet of at most `k` bytes, its size chosen by the
transport (the head of the schedule). -/
def recv (st : RecvState) (k : Nat) : List Nat × RecvState :=
  match st.bytes with
  | [] => ([], st)
  | _ :: _ =>
    let c := min k (max (st.sched.headD 1) 1)
    (st.bytes.take c, ⟨st.bytes.drop c, st.sched.tail⟩)

/-- The accumulation loop of `readexactly`, with explicit fuel.  Each
successful `recv` delivers at least one byte, so `numbytes` units of fuel
always suffice; the fuel only makes the structural recursion explicit. -/
def readLoop (fuel : Nat) (st : RecvState) (need : Nat) : List Nat × RecvState :=
  match fuel with
  | 0 => ([], st)
  | fuel + 1 =>
    if need = 0 then ([], st)
    else
      let p := recv st need
      match p.1 with
      | [] => ([], p.2)
      | b :: packet =>
        let rest := readLoop fuel p.2 (need - (b :: packet).length)
        (b :: packet ++ rest.1, rest.2)

/-- Function `readexactly(sock, numbytes)`: accumulate exactly `numbytes` from the
stream, returning the shorter accumulated prefix if EOF arrives first. -/
def readexactly (st : RecvState) (numbytes : Nat) : List Nat × RecvState :=
  readLoop numbytes st numbytes

theorem recv_fst_eq (st : RecvState) (k : Nat) :
    (recv st k).1 = st.bytes.take (min k (max (st.sched.headD 1) 1)) ∨
      ((recv st k).1 = [] ∧ st.bytes = []) := by
  cases hb : st.bytes with
  | nil => right; simp [recv, hb]
  | cons a l => left; simp [recv, hb]

theorem take_chunk_eq (x : List Nat) (need c : Nat) (h : c ≤ need) :
    x.take c ++ (x.drop c).take (need - (x.take c).length) = x.take need := by
  rcases Nat.le_total c x.length with hcl | hcl
  · have hlc : (x.take c).length = c := by rw [List.length_take]; omega
    rw [hlc, ← List.take_add]
    congr 1
    omega
  · have hdrop : x.drop c = [] := List.drop_eq_nil_of_le hcl
    have h1 : x.take c = x := List.take_of_length_le hcl
    have h2 : x.take need = x := List.take_of_length_le (by omega)
    simp [hdrop, h1, h2]

theorem drop_chunk_eq (x : List Nat) (need c : Nat) (h : c ≤ need) :
    (x.drop c).drop (need - (x.take c).length) = x.drop need := by
  rw [List.drop_drop]
  rcases Nat.le_total c x.length with hcl | hcl
  · have hlc : (x.take c).length = c := by rw [List.length_take]; omega
    rw [hlc]
    congr 1
    omega
  · have h1 : x.drop need = [] := List.drop_eq_nil_of_le (by omega)
    rw [h1]
    refine List.drop_eq_nil_of_le ?_
    have := List.length_take c x
    omega

theorem readLoop_spec (fuel : Nat) :
    ∀ (st : RecvState) (need : Nat), need ≤ fuel →
      (readLoop fuel st need).1 = st.bytes.take need ∧
        (readLoop fuel st need).2.bytes = st.bytes.drop need := by
  induction fuel with
  | zero =>
    intro st need hle
    have h0 : need = 0 := Nat.le_zero.mp hle
    subst h0
    simp [readLoop]
  | succ fuel ih =>
    intro st need hle
    obtain ⟨bs, sc⟩ := st
    dsimp only
    by_cases h0 : need = 0
    · subst h0; simp [readLoop]
    · rw [readLoop]
      simp only [h0, if_false]
      cases bs with
      | nil => simp [recv]
      | cons a l =>
        obtain ⟨c, hc⟩ : ∃ c, min need (max (sc.headD 1) 1) = c := ⟨_, rfl⟩
        have hcpos : 1 ≤ c := by
          rw [← hc]
          exact le_min (Nat.one_le_iff_ne_zero.mpr h0) (le_max_right _ _)
        have hcneed : c ≤ need := by rw [← hc]; exact min_le_left _ _
        have hr : recv ⟨a :: l, sc⟩ need =
            ((a :: l).take c, ⟨(a :: l).drop c, sc.tail⟩) := by
          rw [← hc]; rfl
        have htk : (a :: l).take c = a :: l.take (c - 1) := by
          obtain ⟨m, hm⟩ : ∃ m, c = m + 1 := ⟨c - 1, by omega⟩
          subst hm
          simp
        rw [hr]
        simp only [htk]
        have hsub : need - (a :: l.take (c - 1)).length ≤ fuel := by
          have h1 : (a :: l.take (c - 1)).length = (l.take (c - 1)).length + 1 :=
            rfl
          omega
        obtain ⟨ih1, ih2⟩ := ih ⟨(a :: l).drop c, sc.tail⟩
          (need - (a :: l.take (c - 1)).length) hsub
        dsimp only at ih1 ih2
        refine ⟨?_, ?_⟩
        · show a :: (l.take (c - 1) ++
            (readLoop fuel ⟨(a :: l).drop c, sc.tail⟩
              (need - (a :: l.take (c - 1)).length)).1) = (a :: l).take need
          rw [ih1, ← List.cons_append]
          rw [show (a :: l.take (c - 1)).length = ((a :: l).take c).length by
            rw [htk]]
          rw [← htk]
          exact take_chunk_eq (a :: l) need c hcneed
        · show (readLoop fuel ⟨(a :: l).drop c, sc.tail⟩
            (need - (a :: l.take (c - 1)).length)).2.bytes = (a :: l).drop need
          rw [ih2]
          rw [show (a :: l.take (c - 1)).length = ((a :: l).take c).length by
            rw [htk]]
          exact drop_chunk_eq (a :: l) need c hcneed

theorem readexactly_fst (st : RecvState) (n : Nat) :
    (readexactly st n).1 = st.bytes.take n :=
  (readLoop_spec n st n (le_refl n)).1

theorem readexactly_snd (st : RecvState) (n : Nat) :
    (readexactly st n).2.bytes = st.bytes.drop n :=
  (readLoop_spec n st n (le_refl n)).2

/-- A connection handle with its closed flag (`sock.close()` sets it). -/
structure Conn where
  closed : Bool
deriving DecidableEq, Repr

/-- The `Game = namedtuple("Game", ["p1", "p2"])` aggregate. -/
structure Game (α : Type) where
  p1 : α
  p2 : α
deriving DecidableEq, Repr

/-- Model of `sock.close()`. -/
def Conn.close (c : Conn) : Conn :=
  { c with closed := true }

/-- Function `kill_game(game)`: close both clients' sockets (close failures are
swallowed, which needs no modelling for a pure connection handle). -/
def kill_game (g : Game Conn) : Game Conn :=
  ⟨g.p1.close, g.p2.close⟩

/-- Function `deal_cards()`: `random.shuffle` permutes `list(range(52))` in place, so
the shuffled deck — a permutation of `0..51` — is the input here; the function
then returns `deck[:26], deck[26:]`. -/
def deal_cards (deck : List Nat) : List Nat × List Nat :=
  (deck.take 26, deck.drop 26)

/-- The pair of PLAYRESULT frames sent by lines 138-148 of
`handle_client_connection`, as (bytes to player 1, bytes to player 2). -/
def resultFrames (p1_card p2_card : Nat) : List Nat × List Nat :=
  let result := compare_cards p1_card p2_card
  if 0 < result then
    ([Command.PLAYRESULT, Result.WIN], [Command.PLAYRESULT, Result.LOSE])
  else if result < 0 then
    ([Command.PLAYRESULT, Result.LOSE], [Command.PLAYRESULT, Result.WIN])
  else
    ([Command.PLAYRESULT, Result.DRAW], [Command.PLAYRESULT, Result.DRAW])

/-- Mid-game state of one `handle_client_connection` loop: each player's
played set (`p1_played_cards`, `p2_played_cards`) and each player's
remaining input stream. -/
structure RoundState where
  pl1 : Finset Nat
  pl2 : Finset Nat
  st1 : RecvState
  st2 : RecvState
deriving DecidableEq

/-- One iteration of the `for _ in range(26)` loop of
`handle_client_connection` (lines 107-148): read and validate player 1's
frame, then player 2's; `none` means the game is killed; otherwise the new
state together with the PLAYRESULT bytes sent to each player. -/
def roundStep (p1_cards p2_cards : List Nat) (s : RoundState) :
    Option (RoundState × (List Nat × List Nat)) :=
  let p1r := readexactly s.st1 2
  let p1_msg := p1r.1
  if p1_msg.length < 2 ∨ p1_msg.headD 0 ≠ Command.PLAYCARD then none
  else
    let p1_card := p1_msg.getD 1 0
    if p1_card ∉ p1_cards ∨ p1_card ∈ s.pl1 then none
    else
      let pl1 := insert p1_card s.pl1
      let p2r := readexactly s.st2 2
      let p2_msg := p2r.1
      if p2_msg.length < 2 ∨ p2_msg.headD 0 ≠ Command.PLAYCARD then none
      else
        let p2_card := p2_msg.getD 1 0
        if p2_card ∉ p2_cards ∨ p2_card ∈ s.pl2 then none
        else
          let pl2 := insert p2_card s.pl2
          some (⟨pl1, pl2, p1r.2, p2r.2⟩, resultFrames p1_card p2_card)

/-- Terminal state of a game: the loop ran to completion (lines 150-151) or
the game was killed mid-loop. -/
inductive Status where
  | completed
  | killed
deriving DecidableEq, Repr

/-- Run `n` remaining iterations of the round loop, accumulating the bytes
sent to each player; a `none` from `roundStep` stops everything with
`Status.killed` and no further output. -/
def runRounds (p1_cards p2_cards : List Nat) : Nat → RoundState → List Nat × List Nat × Status
  | 0, _ => ([], [], Status.completed)
  | n + 1, s =>
    match roundStep p1_cards p2_cards s with
    | none => ([], [], Status.killed)
    | some (s1, o1, o2) =>
      let rest := runRounds p1_cards p2_cards n s1
      (o1 ++ rest.1, o2 ++ rest.2.1, rest.2.2)

/-- The loop state after `n` completed iterations of the round loop
(`none` once the game has been killed): the intermediate states the
`for _ in range(26)` loop passes through. -/
def stepN (p1_cards p2_cards : List Nat) : Nat → RoundState → Option RoundState
  | 0, s => some s
  | n + 1, s =>
    match roundStep p1_cards p2_cards s with
    | none => none
    | some (s1, _) => stepN p1_cards p2_cards n s1

/-- Function `handle_client_connection(game)` for dealt hands `p1_cards, p2_cards`
and client input streams `in1, in2`: send each player its GAMESTART frame
(opcode byte + 26 card bytes), then run the 26 rounds.  Returns the bytes
sent to each player and the terminal status. -/
def handle_client_connection (p1_cards p2_cards : List Nat) (in1 in2 : RecvState) :
    List Nat × List Nat × Status :=
  let r := runRounds p1_cards p2_cards 26 ⟨∅, ∅, in1, in2⟩
  ((Command.GAMESTART :: p1_cards) ++ r.1,
    (Command.GAMESTART :: p2_cards) ++ r.2.1, r.2.2)

/-- Both sockets are closed on either exit path: lines 150-151 after a
completed game, `kill_game` otherwise. -/
def finishConnections (g : Game Conn) (st : Status) : Game Conn :=
  match st with
  | Status.completed => ⟨g.p1.close, g.p2.close⟩
  | Status.killed => kill_game g

/-- The matchmaking branch of `serve_game` (lines 186-198): an empty
`waiting_clients` list enqueues the connection; otherwise `pop(0)` yields
the opponent and `Game(opponent_socket, client_socket)` is formed. -/
def offer : List Nat → Nat → List Nat × Option (Game Nat)
  | [], conn => ([conn], none)
  | opponent :: rest, conn => (rest, some ⟨opponent, conn⟩)

/-- Fold `offer` over a sequence of already-validated arriving connections,
collecting the games formed in order. -/
def processArrivals : List Nat → List Nat → List Nat × List (Game Nat)
  | q, [] => (q, [])
  | q, a :: rest =>
    let r := offer q a
    let rr := processArrivals r.1 rest
    (rr.1, match r.2 with | none => rr.2 | some g => g :: rr.2)

/-- One iteration of the accept loop of `serve_game` (lines 179-198) for a
single incoming connection: read its opening 2-byte frame; if the read is
short or the first byte is not WANTGAME, close the connection (it never
reaches the queue, result `(waiting_clients, none)`); otherwise hand the
connection to the matchmaking logic. -/
def serve_game_step (waiting_clients : List Nat) (conn : Nat) (st : RecvState) :
    List Nat × Option (Game Nat) :=
  let msg := (readexactly st 2).1
  if msg.length < 2 ∨ msg.headD 1 ≠ Command.WANTGAME then (waiting_clients, none)
  else offer waiting_clients conn

/-- Spec-side predicate (refinement target for C3): all `n` round frames in `bytes`
are well-formed 2-byte PLAYCARD frames, each card is a member of `hand`,
and no card repeats a member of `played`. -/
def validFrames (hand : List Nat) : Nat → Finset Nat → List Nat → Bool
  | 0, _, _ => true
  | n + 1, played, bytes =>
    match bytes with
    | a :: c :: rest =>
      a == Command.PLAYCARD && decide (c ∈ hand) && decide (c ∉ played) &&
        validFrames hand n (insert c played) rest
    | _ => false

/-- The validation performed on one player's round frame `b` (before `take 2`
truncation): at least 2 bytes available, PLAYCARD opcode, card in the
player's hand, card not already played. -/
def goodFrame (hand : List Nat) (played : Finset Nat) (b : List Nat) : Prop :=
  2 ≤ b.length ∧ b.headD 0 = Command.PLAYCARD ∧
    b.getD 1 0 ∈ hand ∧ b.getD 1 0 ∉ played

instance (hand : List Nat) (played : Finset Nat) (b : List Nat) :
    Decidable (goodFrame hand played b) := by
  unfold goodFrame
  infer_instance

theorem take2_length_lt (b : List Nat) : ((b.take 2).length < 2) ↔ (b.length < 2) := by
  rcases b with _ | ⟨x, _ | ⟨y, t⟩⟩ <;> simp

theorem take2_headD (b : List Nat) (d : Nat) : (b.take 2).headD d = b.headD d := by
  rcases b with _ | ⟨x, _ | ⟨y, t⟩⟩ <;> simp

theorem take2_getD1 (b : List Nat) (d : Nat) : (b.take 2).getD 1 d = b.getD 1 d := by
  rcases b with _ | ⟨x, _ | ⟨y, t⟩⟩ <;> simp [List.getD]

/-- Lemma: `roundStep` succeeds exactly when both players' pending frames pass the
four checks, and then its result is fully determined by the byte streams. -/
theorem roundStep_char (p1_cards p2_cards : List Nat) (s : RoundState) :
    roundStep p1_cards p2_cards s =
      if goodFrame p1_cards s.pl1 s.st1.bytes ∧ goodFrame p2_cards s.pl2 s.st2.bytes then
        some (⟨insert (s.st1.bytes.getD 1 0) s.pl1,
               insert (s.st2.bytes.getD 1 0) s.pl2,
               (readexactly s.st1 2).2, (readexactly s.st2 2).2⟩,
              resultFrames (s.st1.bytes.getD 1 0) (s.st2.bytes.getD 1 0))
      else none := by
  have e1 : (readexactly s.st1 2).1 = s.st1.bytes.take 2 := readexactly_fst _ _
  have e2 : (readexactly s.st2 2).1 = s.st2.bytes.take 2 := readexactly_fst _ _
  simp only [roundStep, e1, e2, take2_length_lt, take2_headD, take2_getD1]
  by_cases hg1 : goodFrame p1_cards s.pl1 s.st1.bytes
  · obtain ⟨hl1, hh1, hc1, hp1⟩ := hg1
    rw [if_neg (by push_neg; exact ⟨by omega, hh1⟩)]
    rw [if_neg (by push_neg; exact ⟨hc1, hp1⟩)]
    by_cases hg2 : goodFrame p2_cards s.pl2 s.st2.bytes
    · obtain ⟨hl2, hh2, hc2, hp2⟩ := hg2
      rw [if_neg (by push_neg; exact ⟨by omega, hh2⟩)]
      rw [if_neg (by push_neg; exact ⟨hc2, hp2⟩)]
      rw [if_pos ⟨⟨hl1, hh1, hc1, hp1⟩, ⟨hl2, hh2, hc2, hp2⟩⟩]
    · have hng : ¬(goodFrame p1_cards s.pl1 s.st1.bytes ∧
          goodFrame p2_cards s.pl2 s.st2.bytes) := fun h => hg2 h.2
      rw [if_neg hng]
      unfold goodFrame at hg2
      push_neg at hg2
      by_cases ha2 : s.st2.bytes.length < 2 ∨ s.st2.bytes.headD 0 ≠ Command.PLAYCARD
      · rw [if_pos ha2]
      · push_neg at ha2
        rw [if_neg (show ¬(s.st2.bytes.length < 2 ∨
            s.st2.bytes.headD 0 ≠ Command.PLAYCARD) by push_neg; exact ha2)]
        have hcond : s.st2.bytes.getD 1 0 ∉ p2_cards ∨ s.st2.bytes.getD 1 0 ∈ s.pl2 := by
          rcases Classical.em (s.st2.bytes.getD 1 0 ∈ p2_cards) with hm | hm
          · exact Or.inr (hg2 (by omega) ha2.2 hm)
          · exact Or.inl hm
        rw [if_pos hcond]
  · have hng : ¬(goodFrame p1_cards s.pl1 s.st1.bytes ∧
        goodFrame p2_cards s.pl2 s.st2.bytes) := fun h => hg1 h.1
    rw [if_neg hng]
    unfold goodFrame at hg1
    push_neg at hg1
    by_cases ha1 : s.st1.bytes.length < 2 ∨ s.st1.bytes.headD 0 ≠ Command.PLAYCARD
    · rw [if_pos ha1]
    · push_neg at ha1
      rw [if_neg (show ¬(s.st1.bytes.length < 2 ∨
          s.st1.bytes.headD 0 ≠ Command.PLAYCARD) by push_neg; exact ha1)]
      have hcond : s.st1.bytes.getD 1 0 ∉ p1_cards ∨ s.st1.bytes.getD 1 0 ∈ s.pl1 := by
        rcases Classical.em (s.st1.bytes.getD 1 0 ∈ p1_cards) with hm | hm
        · exact Or.inr (hg1 (by omega) ha1.2 hm)
        · exact Or.inl hm
      rw [if_pos hcond]

/-- C9: the card comparison depends only on ranks, never on suits:
`compare_cards a b = compare_cards (a mod 13) (b mod 13)`; it is
antisymmetric, and zero on equal cards. -/
theorem compare_cards_rank_antisymm (a b : Nat) :
    compare_cards a b = compare_cards (a % 13) (b % 13) ∧
      compare_cards b a = -compare_cards a b ∧
      compare_cards a a = 0 := by
  refine ⟨?_, ?_, ?_⟩ <;> simp only [compare_cards] <;> split_ifs <;> omega

/-- C6: `readexactly(connection, n)` returns the first `n` bytes of the
stream whenever at least `n` are delivered (regardless of how the transport
partitions them into packets — `st.sched` is arbitrary), returns all
`st.bytes.length < n` bytes on early end-of-stream (a short read the caller
detects by length), and consumes exactly `min n st.bytes.length ≤ n` bytes:
the unconsumed remainder of the stream is `st.bytes.drop n`. -/
theorem readexactly_contract (st : RecvState) (n : Nat) :
    (readexactly st n).1 = st.bytes.take n ∧
      (readexactly st n).2.bytes = st.bytes.drop n ∧
      (readexactly st n).1.length = min n st.bytes.length := by
  refine ⟨readexactly_fst st n, readexactly_snd st n, ?_⟩
  rw [readexactly_fst st n, List.length_take]

/-- C4: `deal_cards` on a shuffled deck (any permutation of `0..51`) yields
two 26-element hands, disjoint, whose union is exactly the deck `{0,…,51}`. -/
theorem deal_cards_partition (deck : List Nat) (h : deck.Perm (List.range 52)) :
    (deal_cards deck).1.length = 26 ∧ (deal_cards deck).2.length = 26 ∧
      (∀ x ∈ (deal_cards deck).1, x ∉ (deal_cards deck).2) ∧
      (∀ x, (x ∈ (deal_cards deck).1 ∨ x ∈ (deal_cards deck).2) ↔
        x ∈ List.range 52) := by
  have hlen : deck.length = 52 := by
    have := h.length_eq
    simpa using this
  have hnd : deck.Nodup := h.nodup_iff.mpr (List.nodup_range 52)
  have hsplit : deck.take 26 ++ deck.drop 26 = deck := List.take_append_drop 26 deck
  have hnd2 : (deck.take 26 ++ deck.drop 26).Nodup := by rw [hsplit]; exact hnd
  rw [List.nodup_append] at hnd2
  refine ⟨?_, ?_, ?_, ?_⟩
  · simp [deal_cards, hlen]
  · simp [deal_cards, hlen]
  · intro x hx hx2
    exact hnd2.2.2 hx hx2
  · intro x
    constructor
    · intro hx
      rw [← h.mem_iff, ← hsplit, List.mem_append]
      exact hx
    · intro hx
      rw [← h.mem_iff, ← hsplit, List.mem_append] at hx
      exact hx

/-- C5: the matchmaking branch is strict FIFO: an empty queue enqueues the
connection forming no game; a nonempty queue pops its first-in element as
the opponent of the arriving connection; over any arrival sequence starting
from an empty queue, consecutive arrivals are paired in order. -/
theorem matchmaker_fifo :
    (∀ conn : Nat, offer [] conn = ([conn], none)) ∧
      (∀ (opponent : Nat) (rest : List Nat) (conn : Nat),
        offer (opponent :: rest) conn = (rest, some ⟨opponent, conn⟩)) ∧
      (∀ (a b : Nat) (rest : List Nat),
        processArrivals [] (a :: b :: rest) =
          ((processArrivals [] rest).1, ⟨a, b⟩ :: (processArrivals [] rest).2)) := by
  refine ⟨fun _ => rfl, fun _ _ _ => rfl, fun a b rest => ?_⟩
  simp [processArrivals, offer]

/-- C7 as stated is false: the server validates only the length and the
opcode byte of the opening frame, so the frame `[0x00, 0x05]` — WANTGAME
opcode with a nonzero second byte — is accepted and the connection enters
the waiting queue. -/
theorem wantgame_nonzero_enters_queue :
    serve_game_step [] 7 ⟨[0, 5], []⟩ = ([7], none) ∧
      (readexactly (⟨[0, 5], []⟩ : RecvState) 2).1 ≠ [0, 0] := by
  decide

/-- C7 amended: a connection is admitted to matchmaking (and so can enter
the waiting queue) iff at least two bytes are read and the first byte is
the WANTGAME opcode; the second byte is never validated, so any opening
frame `[0x00, b]` is accepted.  Otherwise the connection is closed with the
queue unchanged. -/
theorem serve_game_step_admits (waiting : List Nat) (conn : Nat) (st : RecvState) :
    serve_game_step waiting conn st =
      if 2 ≤ st.bytes.length ∧ st.bytes.headD 1 = Command.WANTGAME
      then offer waiting conn else (waiting, none) := by
  unfold serve_game_step
  rw [readexactly_fst]
  by_cases hc : 2 ≤ st.bytes.length ∧ st.bytes.headD 1 = Command.WANTGAME
  · have hny : ¬((st.bytes.take 2).length < 2 ∨
        (st.bytes.take 2).headD 1 ≠ Command.WANTGAME) := by
      push_neg
      constructor
      · rw [List.length_take]
        omega
      · rw [take2_headD]
        exact hc.2
    rw [if_pos hc, if_neg hny]
  · have hc2 := hc
    push_neg at hc2
    have hy : (st.bytes.take 2).length < 2 ∨
        (st.bytes.take 2).headD 1 ≠ Command.WANTGAME := by
      by_cases hl : st.bytes.length < 2
      · exact Or.inl (by rw [take2_length_lt]; exact hl)
      · exact Or.inr (by rw [take2_headD]; exact hc2 (by omega))
    rw [if_neg hc, if_pos hy]

/-- C1: in every completed round, the PLAYRESULT frames sent to the two
players are `[PLAYRESULT, WIN]`/`[PLAYRESULT, LOSE]` when player 1's rank
`card mod 13` exceeds player 2's, reversed when it is smaller, and
`[PLAYRESULT, DRAW]` to both on equal ranks.  The cards played are byte 1
of each player's pending frame. -/
theorem playresult_frames (p1_cards p2_cards : List Nat) (s s1 : RoundState)
    (o1 o2 : List Nat)
    (h : roundStep p1_cards p2_cards s = some (s1, o1, o2)) :
    (s.st2.bytes.getD 1 0 % 13 < s.st1.bytes.getD 1 0 % 13 →
      o1 = [Command.PLAYRESULT, Result.WIN] ∧
        o2 = [Command.PLAYRESULT, Result.LOSE]) ∧
    (s.st1.bytes.getD 1 0 % 13 < s.st2.bytes.getD 1 0 % 13 →
      o1 = [Command.PLAYRESULT, Result.LOSE] ∧
        o2 = [Command.PLAYRESULT, Result.WIN]) ∧
    (s.st1.bytes.getD 1 0 % 13 = s.st2.bytes.getD 1 0 % 13 →
      o1 = [Command.PLAYRESULT, Result.DRAW] ∧
        o2 = [Command.PLAYRESULT, Result.DRAW]) := by
  rw [roundStep_char] at h
  by_cases hg : goodFrame p1_cards s.pl1 s.st1.bytes ∧
      goodFrame p2_cards s.pl2 s.st2.bytes
  · rw [if_pos hg] at h
    have hX := Option.some.inj h
    have hsnd : resultFrames (s.st1.bytes.getD 1 0) (s.st2.bytes.getD 1 0) =
        (o1, o2) := congrArg Prod.snd hX
    have ho1 : (resultFrames (s.st1.bytes.getD 1 0) (s.st2.bytes.getD 1 0)).1 = o1 :=
      congrArg Prod.fst hsnd
    have ho2 : (resultFrames (s.st1.bytes.getD 1 0) (s.st2.bytes.getD 1 0)).2 = o2 :=
      congrArg Prod.snd hsnd
    refine ⟨fun hr => ?_, fun hr => ?_, fun hr => ?_⟩
    · have hv : compare_cards (s.st1.bytes.getD 1 0) (s.st2.bytes.getD 1 0) = 1 := by
        simp only [compare_cards]
        rw [if_neg (by omega), if_pos hr]
      rw [← ho1, ← ho2]
      simp only [resultFrames]
      rw [hv]
      norm_num
    · have hv : compare_cards (s.st1.bytes.getD 1 0) (s.st2.bytes.getD 1 0) = -1 := by
        simp only [compare_cards]
        rw [if_pos hr]
      rw [← ho1, ← ho2]
      simp only [resultFrames]
      rw [hv]
      norm_num
    · have hv : compare_cards (s.st1.bytes.getD 1 0) (s.st2.bytes.getD 1 0) = 0 := by
        simp only [compare_cards]
        rw [if_neg (by omega), if_neg (by omega)]
      rw [← ho1, ← ho2]
      simp only [resultFrames]
      rw [hv]
      norm_num
  · rw [if_neg hg] at h
    exact Option.noConfusion h

/-- C1 witness: player 1 plays card 12 (rank 12), player 2 plays card 0
(rank 0): player 1 receives WIN, player 2 LOSE. -/
theorem playresult_frames_witness :
    roundStep [12] [0] ⟨∅, ∅, ⟨[2, 12], []⟩, ⟨[2, 0], []⟩⟩ =
        some (⟨{12}, {0}, ⟨[], []⟩, ⟨[], []⟩⟩, [3, 0], [3, 2]) ∧
      ((0 % 13 < 12 % 13 →
        ([3, 0] : List Nat) = [Command.PLAYRESULT, Result.WIN] ∧
          ([3, 2] : List Nat) = [Command.PLAYRESULT, Result.LOSE]) ∧
       (12 % 13 < 0 % 13 →
        ([3, 0] : List Nat) = [Command.PLAYRESULT, Result.LOSE] ∧
          ([3, 2] : List Nat) = [Command.PLAYRESULT, Result.WIN]) ∧
       (12 % 13 = 0 % 13 →
        ([3, 0] : List Nat) = [Command.PLAYRESULT, Result.DRAW] ∧
          ([3, 2] : List Nat) = [Command.PLAYRESULT, Result.DRAW])) :=
  ⟨by decide,
    playresult_frames [12] [0] ⟨∅, ∅, ⟨[2, 12], []⟩, ⟨[2, 0], []⟩⟩
      ⟨{12}, {0}, ⟨[], []⟩, ⟨[], []⟩⟩ [3, 0] [3, 2] (by decide)⟩

/-- C2: if either player's pending round frame is short, has the wrong
opcode, plays a card outside that player's hand, or replays a card, the
round loop ends immediately in `Killed`: no bytes at all (in particular no
PLAYRESULT frame) are sent from this round on, and `kill_game` closes both
connections. -/
theorem invalid_frame_kills (p1_cards p2_cards : List Nat) (n : Nat)
    (s : RoundState) (g : Game Conn)
    (h : (s.st1.bytes.length < 2 ∨ s.st1.bytes.headD 0 ≠ Command.PLAYCARD ∨
            s.st1.bytes.getD 1 0 ∉ p1_cards ∨ s.st1.bytes.getD 1 0 ∈ s.pl1) ∨
         (s.st2.bytes.length < 2 ∨ s.st2.bytes.headD 0 ≠ Command.PLAYCARD ∨
            s.st2.bytes.getD 1 0 ∉ p2_cards ∨ s.st2.bytes.getD 1 0 ∈ s.pl2)) :
    runRounds p1_cards p2_cards (n + 1) s = ([], [], Status.killed) ∧
      (kill_game g).p1.closed = true ∧ (kill_game g).p2.closed = true := by
  have hng : ¬(goodFrame p1_cards s.pl1 s.st1.bytes ∧
      goodFrame p2_cards s.pl2 s.st2.bytes) := by
    rintro ⟨⟨g11, g12, g13, g14⟩, ⟨g21, g22, g23, g24⟩⟩
    rcases h with (h | h | h | h) | (h | h | h | h)
    · omega
    · exact h g12
    · exact h g13
    · exact g14 h
    · omega
    · exact h g22
    · exact h g23
    · exact g24 h
  refine ⟨?_, rfl, rfl⟩
  simp only [runRounds]
  rw [roundStep_char, if_neg hng]

/-- C2 witness: player 1's frame `[0, 7]` has the wrong opcode (0 instead
of PLAYCARD), so the round loop stops with `Killed` and empty output. -/
theorem invalid_frame_kills_witness :
    ((([0, 7] : List Nat).length < 2 ∨
        ([0, 7] : List Nat).headD 0 ≠ Command.PLAYCARD ∨
        ([0, 7] : List Nat).getD 1 0 ∉ ([7] : List Nat) ∨
        ([0, 7] : List Nat).getD 1 0 ∈ (∅ : Finset Nat)) ∨
      (([2, 0] : List Nat).length < 2 ∨
        ([2, 0] : List Nat).headD 0 ≠ Command.PLAYCARD ∨
        ([2, 0] : List Nat).getD 1 0 ∉ ([0] : List Nat) ∨
        ([2, 0] : List Nat).getD 1 0 ∈ (∅ : Finset Nat))) ∧
      (runRounds [7] [0] 1 ⟨∅, ∅, ⟨[0, 7], []⟩, ⟨[2, 0], []⟩⟩ =
          ([], [], Status.killed) ∧
        (kill_game ⟨⟨false⟩, ⟨false⟩⟩).p1.closed = true ∧
        (kill_game ⟨⟨false⟩, ⟨false⟩⟩).p2.closed = true) :=
  ⟨by decide,
    invalid_frame_kills [7] [0] 0 ⟨∅, ∅, ⟨[0, 7], []⟩, ⟨[2, 0], []⟩⟩
      ⟨⟨false⟩, ⟨false⟩⟩ (by decide)⟩

theorem stepN_invariant (p1_cards p2_cards : List Nat) (n : Nat) :
    ∀ s t : RoundState, stepN p1_cards p2_cards n s = some t →
      (∀ x ∈ s.pl1, x ∈ p1_cards) → (∀ x ∈ s.pl2, x ∈ p2_cards) →
      (∀ x ∈ t.pl1, x ∈ p1_cards) ∧ (∀ x ∈ t.pl2, x ∈ p2_cards) := by
  induction n with
  | zero =>
    intro s t h h1 h2
    have : s = t := Option.some.inj h
    subst this
    exact ⟨h1, h2⟩
  | succ n ih =>
    intro s t h h1 h2
    rw [stepN, roundStep_char] at h
    by_cases hg : goodFrame p1_cards s.pl1 s.st1.bytes ∧
        goodFrame p2_cards s.pl2 s.st2.bytes
    · rw [if_pos hg] at h
      refine ih _ t h ?_ ?_
      · intro x hx
        rcases Finset.mem_insert.mp hx with hx | hx
        · subst hx
          exact hg.1.2.2.1
        · exact h1 x hx
      · intro x hx
        rcases Finset.mem_insert.mp hx with hx | hx
        · subst hx
          exact hg.2.2.2.1
        · exact h2 x hx
    · rw [if_neg hg] at h
      exact Option.noConfusion h

/-- C8: throughout every game, each player's played set stays inside that
player's dealt hand and (being a finite set) holds no duplicates: true for
the empty sets right after the deal and preserved by every round step, hence
at every state the loop reaches. -/
theorem played_sets_invariant (p1_cards p2_cards : List Nat)
    (in1 in2 : RecvState) (n : Nat) (s : RoundState)
    (h : stepN p1_cards p2_cards n ⟨∅, ∅, in1, in2⟩ = some s) :
    (∀ x ∈ s.pl1, x ∈ p1_cards) ∧ (∀ x ∈ s.pl2, x ∈ p2_cards) ∧
      s.pl1.val.Nodup ∧ s.pl2.val.Nodup := by
  have hinv := stepN_invariant p1_cards p2_cards n ⟨∅, ∅, in1, in2⟩ s h
    (by intro x hx; exact absurd hx (Finset.not_mem_empty x))
    (by intro x hx; exact absurd hx (Finset.not_mem_empty x))
  exact ⟨hinv.1, hinv.2, s.pl1.nodup, s.pl2.nodup⟩

/-- C8 witness: after one valid round (card 5 and card 31), the played sets
`{5}` and `{31}` are inside the hands `[5]` and `[31]`. -/
theorem played_sets_invariant_witness :
    stepN [5] [31] 1 ⟨∅, ∅, ⟨[2, 5], []⟩, ⟨[2, 31], []⟩⟩ =
        some ⟨{5}, {31}, ⟨[], []⟩, ⟨[], []⟩⟩ ∧
      ((∀ x ∈ ({5} : Finset Nat), x ∈ ([5] : List Nat)) ∧
        (∀ x ∈ ({31} : Finset Nat), x ∈ ([31] : List Nat)) ∧
        ({5} : Finset Nat).val.Nodup ∧ ({31} : Finset Nat).val.Nodup) :=
  ⟨by decide,
    played_sets_invariant [5] [31] ⟨[2, 5], []⟩ ⟨[2, 31], []⟩ 1
      ⟨{5}, {31}, ⟨[], []⟩, ⟨[], []⟩⟩ (by decide)⟩

theorem validFrames_succ_iff (hand : List Nat) (played : Finset Nat)
    (b : List Nat) (n : Nat) :
    validFrames hand (n + 1) played b = true ↔
      (goodFrame hand played b ∧
        validFrames hand n (insert (b.getD 1 0) played) (b.drop 2) = true) := by
  rcases b with _ | ⟨a, _ | ⟨c, r⟩⟩
  · simp [validFrames, goodFrame]
  · simp [validFrames, goodFrame]
  · show (a == Command.PLAYCARD && decide (c ∈ hand) && decide (c ∉ played) &&
        validFrames hand n (insert c played) r) = true ↔
      ((2 ≤ r.length + 1 + 1 ∧ a = Command.PLAYCARD ∧ c ∈ hand ∧ c ∉ played) ∧
        validFrames hand n (insert c played) r = true)
    simp only [Bool.and_eq_true, beq_iff_eq, decide_eq_true_eq]
    constructor
    · rintro ⟨⟨⟨h1, h2⟩, h3⟩, h4⟩
      exact ⟨⟨by omega, h1, h2, h3⟩, h4⟩
    · rintro ⟨⟨hl, h1, h2, h3⟩, h4⟩
      exact ⟨⟨⟨h1, h2⟩, h3⟩, h4⟩

theorem runRounds_completed_iff (p1_cards p2_cards : List Nat) (n : Nat) :
    ∀ s : RoundState, ((runRounds p1_cards p2_cards n s).2.2 = Status.completed ↔
      (validFrames p1_cards n s.pl1 s.st1.bytes = true ∧
        validFrames p2_cards n s.pl2 s.st2.bytes = true)) := by
  induction n with
  | zero =>
    intro s
    simp [runRounds, validFrames]
  | succ n ih =>
    intro s
    simp only [runRounds]
    rw [roundStep_char]
    by_cases hg : goodFrame p1_cards s.pl1 s.st1.bytes ∧
        goodFrame p2_cards s.pl2 s.st2.bytes
    · rw [if_pos hg]
      dsimp only
      rw [ih ⟨insert (s.st1.bytes.getD 1 0) s.pl1,
        insert (s.st2.bytes.getD 1 0) s.pl2,
        (readexactly s.st1 2).2, (readexactly s.st2 2).2⟩]
      dsimp only
      rw [readexactly_snd, readexactly_snd]
      rw [validFrames_succ_iff, validFrames_succ_iff]
      constructor
      · rintro ⟨v1, v2⟩
        exact ⟨⟨hg.1, v1⟩, ⟨hg.2, v2⟩⟩
      · rintro ⟨⟨_, v1⟩, ⟨_, v2⟩⟩
        exact ⟨v1, v2⟩
    · rw [if_neg hg]
      dsimp only
      refine iff_of_false (by decide) ?_
      rintro ⟨v1, v2⟩
      rw [validFrames_succ_iff] at v1 v2
      exact hg ⟨v1.1, v2.1⟩

/-- C3: a game completes (both connections then being closed normally) if
and only if each player's stream consists of 26 well-formed 2-byte PLAYCARD
frames, every card drawn from that player's own hand with no repeats. -/
theorem completed_iff_all_frames_valid (p1_cards p2_cards : List Nat)
    (in1 in2 : RecvState) :
    ((handle_client_connection p1_cards p2_cards in1 in2).2.2 = Status.completed ↔
      (validFrames p1_cards 26 ∅ in1.bytes = true ∧
        validFrames p2_cards 26 ∅ in2.bytes = true)) ∧
      (∀ g : Game Conn,
        (finishConnections g Status.completed).p1.closed = true ∧
        (finishConnections g Status.completed).p2.closed = true) := by
  refine ⟨?_, fun g => ⟨rfl, rfl⟩⟩
  have h := runRounds_completed_iff p1_cards p2_cards 26 ⟨∅, ∅, in1, in2⟩
  simpa [handle_client_connection] using h

theorem runRounds_congr (p1_cards p2_cards : List Nat) (n : Nat) :
    ∀ s t : RoundState, s.pl1 = t.pl1 → s.pl2 = t.pl2 →
      s.st1.bytes = t.st1.bytes → s.st2.bytes = t.st2.bytes →
      runRounds p1_cards p2_cards n s = runRounds p1_cards p2_cards n t := by
  induction n with
  | zero => intro s t _ _ _ _; rfl
  | succ n ih =>
    intro s t h1 h2 h3 h4
    simp only [runRounds]
    rw [roundStep_char, roundStep_char, h1, h2, h3, h4]
    by_cases hg : goodFrame p1_cards t.pl1 t.st1.bytes ∧
        goodFrame p2_cards t.pl2 t.st2.bytes
    · rw [if_pos hg, if_pos hg]
      dsimp only
      rw [ih ⟨insert (t.st1.bytes.getD 1 0) t.pl1,
          insert (t.st2.bytes.getD 1 0) t.pl2,
          (readexactly s.st1 2).2, (readexactly s.st2 2).2⟩
        ⟨insert (t.st1.bytes.getD 1 0) t.pl1,
          insert (t.st2.bytes.getD 1 0) t.pl2,
          (readexactly t.st1 2).2, (readexactly t.st2 2).2⟩
        rfl rfl
        (by rw [readexactly_snd, readexactly_snd, h3])
        (by rw [readexactly_snd, readexactly_snd, h4])]
    · rw [if_neg hg, if_neg hg]

/-- C10: the game session is deterministic in its inputs: two runs with the
same dealt hands and the same client byte streams (however differently the
transport chunks them into packets) send identical bytes to each player and
end in the same terminal status. -/
theorem session_deterministic (p1_cards p2_cards : List Nat)
    (in1 in2 in3 in4 : RecvState)
    (h1 : in1.bytes = in3.bytes) (h2 : in2.bytes = in4.bytes) :
    handle_client_connection p1_cards p2_cards in1 in2 =
      handle_client_connection p1_cards p2_cards in3 in4 := by
  unfold handle_client_connection
  rw [runRounds_congr p1_cards p2_cards 26 ⟨∅, ∅, in1, in2⟩ ⟨∅, ∅, in3, in4⟩
    rfl rfl h1 h2]

/-- C10 witness: the same byte streams under different packet schedules give
identical sessions. -/
theorem session_deterministic_witness :
    (⟨[], []⟩ : RecvState).bytes = (⟨[], [3]⟩ : RecvState).bytes ∧
      (⟨[], [7]⟩ : RecvState).bytes = (⟨[], []⟩ : RecvState).bytes ∧
      handle_client_connection [] [] ⟨[], []⟩ ⟨[], [7]⟩ =
        handle_client_connection [] [] ⟨[], [3]⟩ ⟨[], []⟩ :=
  ⟨rfl, rfl,
    session_deterministic [] [] ⟨[], []⟩ ⟨[], [7]⟩ ⟨[], [3]⟩ ⟨[], []⟩ rfl rfl⟩

/-- C4 witness: the identity shuffle of the deck `0..51`. -/
theorem deal_cards_partition_witness :
    (List.range 52).Perm (List.range 52) ∧
      ((deal_cards (List.range 52)).1.length = 26 ∧
        (deal_cards (List.range 52)).2.length = 26 ∧
        (∀ x ∈ (deal_cards (List.range 52)).1, x ∉ (deal_cards (List.range 52)).2) ∧
        (∀ x, (x ∈ (deal_cards (List.range 52)).1 ∨
            x ∈ (deal_cards (List.range 52)).2) ↔ x ∈ List.range 52)) :=
  ⟨List.Perm.refl (List.range 52),
    deal_cards_partition (List.range 52) (List.Perm.refl (List.range 52))⟩

end War
